import Mathlib

/-
Verification development for the job-bulletin table-extraction engine
(src/src/pdf_parser.py and src/src/utils.py).

The code is embedded shallowly:
  * a pandas DataFrame produced by `extract_tables` is modelled as a
    `RawTable`: the grid's header row, its data rows, and the source page
    number.  `extract_tables` also appends an auxiliary `_pagina` column
    to every DataFrame.  Inside `find_cargos_table` that column is elided:
    it contributes no classification keyword (neither the label `_pagina`
    nor a page number contains one) and the only shape comparisons are
    equalities, whose both sides shift by one together, so "column count"
    there means the grid's own column count.  Inside `parse_cargos` the
    branch thresholds are absolute, so the column list the function
    receives is modelled explicitly: `inferMapping` transcribes the
    function of the `df.columns` argument it is handed, and
    `parseCargosMapping` applies it to a grid header with `_pagina`
    appended, the way `extract_tables` built the DataFrame.
  * Python `str.lower()` is modelled for the character ranges that occur in
    the data (ASCII and the Latin-1 accented capitals), `str.strip()` by
    `String.trim`, and the substring operator `in` by `occursIn`.
  * `re.search` over the two concrete patterns used by `parse_vagas` is
    modelled directly; for these patterns the greedy engine never needs to
    backtrack, so maximal-munch scanning is exact.
-/

/-- Lowercase one character the way Python `str.lower()` does on the
alphabets occurring in the bulletins: ASCII `A`-`Z` and the Latin-1
accented capitals `À`-`Þ` (except `×`) map to the code point 32 higher. -/
def lowerChar (c : Char) : Char :=
  if 'A' ≤ c && c ≤ 'Z' then Char.ofNat (c.toNat + 32)
  else if (0xC0 ≤ c.toNat && c.toNat ≤ 0xDE) && c.toNat ≠ 0xD7 then Char.ofNat (c.toNat + 32)
  else c

/-- Model of Python `str.lower()`. -/
def pyLower (s : String) : String := String.mk (s.toList.map lowerChar)

/-- `leadMatch pat l` is true when `pat` is an initial segment of `l`. -/
def leadMatch : List Char → List Char → Bool
  | [], _ => true
  | _ :: _, [] => false
  | a :: as, b :: bs => a = b && leadMatch as bs

/-- `occursIn pat l` is true when `pat` occurs contiguously inside `l`
(Python substring operator `in`). -/
def occursIn (pat : List Char) : List Char → Bool
  | [] => pat.isEmpty
  | c :: cs => leadMatch pat (c :: cs) || occursIn pat cs

/-- `containsSub hay pat` is the Python test `pat in hay` on strings. -/
def containsSub (hay pat : String) : Bool := occursIn pat.toList hay.toList

/-- Model of `' '.join(str(x).lower() for x in cells)`. -/
def joinLower (cells : List String) : String :=
  " ".intercalate (cells.map pyLower)

/-- One table detected on one page: the header row (DataFrame column
labels), the data rows, and the page number (`_pagina` tag). -/
structure RawTable where
  page : Nat
  header : List String
  rows : List (List String)
deriving DecidableEq, Repr

/-- Column count of a table, the LayoutSignature of the spec. -/
def RawTable.ncols (t : RawTable) : Nat := t.header.length

/-- The fixed keyword vocabulary of `find_cargos_table` (pdf_parser.py
line 129). -/
def keywords : List String :=
  ["cargo", "escolaridade", "requisito", "salário", "remuneração",
   "vencimento", "vagas", "chs", "carga horária"]

/-- The lowercase text scanned for keywords: the space-joined lowercased
header cells, a space, and (when a data row exists) the space-joined
lowercased first data row (pdf_parser.py lines 141-149). -/
def combinedText (t : RawTable) : String :=
  joinLower t.header ++ " " ++
    (match t.rows with
     | [] => ""
     | r :: _ => joinLower r)

/-- Classification score: how many vocabulary keywords occur as substrings
of `combinedText` (pdf_parser.py line 152). -/
def classify (t : RawTable) : Nat :=
  keywords.countP (fun k => containsSub (combinedText t) k)

/-- A table qualifies as a candidate role table iff its score is at
least 2 (pdf_parser.py line 155). -/
def qualB (t : RawTable) : Bool := 2 ≤ classify t

/-- One step of the selection loop of `find_cargos_table` (pdf_parser.py
lines 136-162).  The state is the list of tables accepted so far together
with `reference_shape` (`none` while unset).  An empty table is skipped
before scoring; a qualifying table fixes the reference column count if it
is still unset and is appended exactly when its column count equals the
reference. -/
def selectStep (acc : List RawTable × Option Nat) (t : RawTable) :
    List RawTable × Option Nat :=
  if t.rows.isEmpty then acc
  else if 2 ≤ classify t then
    let ref := acc.2.getD t.ncols
    if t.ncols = ref then (acc.1 ++ [t], some ref) else (acc.1, some ref)
  else acc

/-- The consolidated group built by `find_cargos_table`: the sub-sequence
of input tables accepted by the selection loop, in input (page) order.
The source then concatenates the accepted tables' rows and returns `None`
when the group is empty. -/
def selectCargoTables (tables : List RawTable) : List RawTable :=
  (tables.foldl selectStep ([], none)).1

example : qualB ⟨1, ["Cargo", "Vagas"], [["a", "b"]]⟩ = true := by decide
example : selectCargoTables [⟨1, ["Cargo", "Vagas"], [["a", "b"]]⟩] =
    [⟨1, ["Cargo", "Vagas"], [["a", "b"]]⟩] := by decide

/-- The partial mapping from semantic fields to 0-based column indices
(`col_mapping` in `parse_cargos`). -/
structure ColMapping where
  cargo : Option Nat := none
  requisito : Option Nat := none
  salario : Option Nat := none
  carga_horaria : Option Nat := none
  vagas : Option Nat := none
deriving DecidableEq, Repr

/-- Header matches the role keyword group (pdf_parser.py line 239). -/
def roleMatchB (h : String) : Bool :=
  containsSub (pyLower h) "cargo" || containsSub (pyLower h) "função"

/-- Header matches the requirement keyword group (line 241). -/
def reqMatchB (h : String) : Bool :=
  containsSub (pyLower h) "escolaridade" || containsSub (pyLower h) "requisito"

/-- Header matches the salary keyword group (line 243). -/
def salMatchB (h : String) : Bool :=
  containsSub (pyLower h) "salário" || containsSub (pyLower h) "vencimento" ||
  containsSub (pyLower h) "remuneração" || containsSub (pyLower h) "valor inicial"

/-- Header matches the weekly-hours keyword group (line 245). -/
def hoursMatchB (h : String) : Bool :=
  containsSub (pyLower h) "chs" || containsSub (pyLower h) "carga"

/-- Header matches the openings keyword group (line 247). -/
def vagasMatchB (h : String) : Bool := containsSub (pyLower h) "vagas"

/-- Header is assigned to the salary field by the narrow-layout chain:
it matches the salary group and no higher-priority group. -/
def assignsSalaryB (h : String) : Bool :=
  !roleMatchB h && !reqMatchB h && salMatchB h

/-- One iteration of the narrow-layout `for idx, col in enumerate(...)`
loop (pdf_parser.py lines 236-248): an exclusive if/elif chain, so a
column is assigned to at most one field, the first group it matches. -/
def assignCol (m : ColMapping) (idx : Nat) (col : String) : ColMapping :=
  if roleMatchB col then { m with cargo := some idx }
  else if reqMatchB col then { m with requisito := some idx }
  else if salMatchB col then { m with salario := some idx }
  else if hoursMatchB col then { m with carga_horaria := some idx }
  else if vagasMatchB col then { m with vagas := some idx }
  else m

/-- The narrow-layout loop over the headers, carrying the running index. -/
def narrowGo (m : ColMapping) (idx : Nat) : List String → ColMapping
  | [] => m
  | h :: hs => narrowGo (assignCol m idx h) (idx + 1) hs

/-- Schema inference of `parse_cargos` (pdf_parser.py lines 216-248), as
a function of the `df.columns` list the function receives: a fixed
positional map for at least 8 columns, another for 5 to 7 columns, and
per-column header keyword matching below 5 columns. -/
def inferMapping (headers : List String) : ColMapping :=
  if 8 ≤ headers.length then
    { cargo := some 0, requisito := some 2, carga_horaria := some 3,
      vagas := some 4, salario := some 7 }
  else if 5 ≤ headers.length then
    { cargo := some 0, requisito := some 1, carga_horaria := some 2,
      vagas := some 3, salario := some 4 }
  else narrowGo {} 0 headers

/-- The mapping `parse_cargos` computes for a grid table with the given
header: `extract_tables` (pdf_parser.py line 106) appends the `_pagina`
column to every DataFrame, so the `df.columns` list the function receives
is the grid header followed by `_pagina`. -/
def parseCargosMapping (header : List String) : ColMapping :=
  inferMapping (header ++ ["_pagina"])

/-- One extracted row before the inclusion test (`cargo_info`). -/
structure CargoInfo where
  cidade : String
  cargo : String
  requisito : String
  salario : String
  carga_horaria : String
  vagas : String
deriving DecidableEq, Repr

/-- Whitespace characters stripped by Python `str.strip()` (the ASCII
ones that occur in extracted cells). -/
def isSpaceC (c : Char) : Bool :=
  c = ' ' || c = '\t' || c = '\n' || c = '\r' || c = '\x0b' || c = '\x0c'

/-- Model of Python `str.strip()`: drop whitespace from both ends. -/
def pyStrip (s : String) : String :=
  String.mk (((s.toList.dropWhile isSpaceC).reverse.dropWhile isSpaceC).reverse)

/-- Read one mapped cell: an unmapped field keeps the default empty
string; a mapped index is read with `row.iloc[i]` (out of range raises,
modelled as `none`) and stripped (pdf_parser.py lines 264-278). -/
def readField (row : List String) : Option Nat → Option String
  | none => some ""
  | some i => (row.get? i).map pyStrip

/-- Placeholder normalization (pdf_parser.py lines 284-286): a value that
equals one of the literal strings nan, None, null becomes empty. -/
def normPH (s : String) : String :=
  if s = "nan" || s = "None" || s = "null" then "" else s

/-- Extraction of one row (pdf_parser.py lines 253-286): every mapped
cell is read and stripped inside one try block, so any out-of-range index
drops the whole row (`none`, no partial record); afterwards every field
of the row dict, the city included, is placeholder-normalized. -/
def rowRecord (m : ColMapping) (cidade : String) (row : List String) :
    Option CargoInfo :=
  match readField row m.cargo, readField row m.requisito,
        readField row m.salario, readField row m.carga_horaria,
        readField row m.vagas with
  | some c, some rq, some sl, some ch, some vg =>
      some { cidade := normPH cidade, cargo := normPH c,
             requisito := normPH rq, salario := normPH sl,
             carga_horaria := normPH ch, vagas := normPH vg }
  | _, _, _, _, _ => none

/-- The inclusion predicate (pdf_parser.py lines 289-292): role truthy
and longer than 3 characters, salary truthy and not one of nan, None,
dash. -/
def includeB (c : CargoInfo) : Bool :=
  !(c.cargo = "") && 3 < c.cargo.length && !(c.salario = "") &&
  !(c.salario = "nan" || c.salario = "None" || c.salario = "-")

/-- The row loop of `parse_cargos` (pdf_parser.py lines 253-294): each
row yields at most one record; a row whose extraction fails is skipped,
a row failing the inclusion predicate is dropped. -/
def parseRows (m : ColMapping) (cidade : String)
    (rows : List (List String)) : List CargoInfo :=
  rows.filterMap (fun r =>
    match rowRecord m cidade r with
    | some info => if includeB info then some info else none
    | none => none)

/-- `parse_cargos` (pdf_parser.py lines 179-297), as a function of the
DataFrame it receives (`header` is its `df.columns` list, `rows` its data
rows): empty input yields no records, otherwise the mapping inferred from
the column list drives the row loop. -/
def parse_cargos (header : List String) (rows : List (List String))
    (cidade : String) : List CargoInfo :=
  if rows.isEmpty then [] else parseRows (inferMapping header) cidade rows

/-- ASCII digit test (the digits `re` meets in openings strings). -/
def isDigitC (c : Char) : Bool := '0' ≤ c && c ≤ '9'

/-- Numeric value of a digit string, as Python `int` reads it. -/
def natOfDigits (l : List Char) : Nat :=
  l.foldl (fun a c => a * 10 + (c.toNat - 48)) 0

/-- Case-insensitive test for the literal `CR` at the head of the list. -/
def isCR2 : List Char → Bool
  | c :: r :: _ => (c = 'C' || c = 'c') && (r = 'R' || r = 'r')
  | _ => false

/-- Try the pattern digits, optional spaces, plus, optional spaces, CR
at the head of the list, returning the captured number.  For this
pattern the greedy matcher never backtracks, so maximal munch is
exact. -/
def matchPlusCRAt (l : List Char) : Option Nat :=
  let ds := l.takeWhile isDigitC
  if ds.isEmpty then none
  else
    match (l.dropWhile isDigitC).dropWhile isSpaceC with
    | '+' :: r2 =>
        if isCR2 (r2.dropWhile isSpaceC) then some (natOfDigits ds) else none
    | _ => none

/-- Model of `re.search` for the pattern used at utils.py line 159: try
every start position left to right. -/
def searchPlusCR : List Char → Option Nat
  | [] => none
  | c :: cs =>
    match matchPlusCRAt (c :: cs) with
    | some n => some n
    | none => searchPlusCR cs

/-- Model of `re.search` for a bare digit run (utils.py line 165): the
maximal digit run starting at the first digit. -/
def searchNat (l : List Char) : Option Nat :=
  match l.dropWhile (fun c => !isDigitC c) with
  | [] => none
  | c :: cs => some (natOfDigits ((c :: cs).takeWhile isDigitC))

/-- `parse_vagas` (utils.py lines 145-169): empty input yields (0, 0);
a digits-plus-CR occurrence yields the captured count with reserve flag
1; otherwise the first digit run yields its value with flag 0; otherwise
(0, 0). -/
def parse_vagas (s : String) : Nat × Nat :=
  if s = "" then (0, 0)
  else
    match searchPlusCR s.toList with
    | some n => (n, 1)
    | none =>
      match searchNat s.toList with
      | some n => (n, 0)
      | none => (0, 0)

example : parse_vagas "03+CR" = (3, 1) := by decide
example : parse_vagas "10 + CR" = (10, 1) := by decide
example : parse_vagas "01" = (1, 0) := by decide
example : parse_vagas "" = (0, 0) := by decide
example : parse_vagas "a10" = (10, 0) := by decide
example : parse_vagas "02+cr" = (2, 1) := by decide

example : inferMapping ["Cargo", "Salário"] =
    { cargo := some 0, salario := some 1 } := by decide
example :
    parseRows { cargo := some 0, salario := some 1 } "X"
      [["Agente de Saúde", "1.518,00"], ["X", "-"]] =
    [{ cidade := "X", cargo := "Agente de Saúde", requisito := "",
       salario := "1.518,00", carga_horaria := "", vagas := "" }] := by decide

/-- Qualifying table with 8 columns on page 1. -/
def tab1 : RawTable :=
  ⟨1, ["Cargo", "Escolaridade", "Requisito", "CHS", "Vagas", "Local", "Nível", "Salário"],
   [["Enfermeiro PSF", "Superior", "Enfermagem", "40h", "02+CR", "Sede", "I", "1.518,00"]]⟩

/-- Qualifying table with 8 columns on page 2. -/
def tab2 : RawTable :=
  ⟨2, ["Cargo", "Escolaridade", "Requisito", "CHS", "Vagas", "Local", "Nível", "Salário"],
   [["Médico", "Superior", "Medicina", "40h", "01", "Sede", "I", "10.000,00"]]⟩

/-- Qualifying table with 9 columns on page 3. -/
def tab3 : RawTable :=
  ⟨3, ["Cargo", "Escolaridade", "Requisito", "CHS", "Vagas", "Local", "Nível", "Taxa", "Salário"],
   [["Dentista", "Superior", "Odontologia", "40h", "01", "Sede", "I", "10,00", "3.000,00"]]⟩

example : qualB tab1 && qualB tab2 && qualB tab3 = true := by decide
example : tab1.ncols = 8 ∧ tab2.ncols = 8 ∧ tab3.ncols = 9 := by decide

theorem selectStep_rows_nil (acc : List RawTable × Option Nat)
    (t : RawTable) (h : t.rows = []) : selectStep acc t = acc := by
  simp [selectStep, h]

theorem foldl_selectStep_none (l : List RawTable) (sel : List RawTable)
    (h : ∀ t ∈ l, ¬ 2 ≤ classify t) :
    l.foldl selectStep (sel, none) = (sel, none) := by
  induction l with
  | nil => rfl
  | cons t l ih =>
    have ht : ¬ 2 ≤ classify t := h t (List.mem_cons_self t l)
    have hstep : selectStep (sel, none) t = (sel, none) := by
      simp [selectStep, ht]
    rw [List.foldl_cons, hstep]
    exact ih (fun u hu => h u (List.mem_cons_of_mem t hu))

theorem foldl_selectStep_some (l : List RawTable) :
    ∀ (sel : List RawTable) (r : Nat),
    l.foldl selectStep (sel, some r) =
      (sel ++ l.filter (fun t => !t.rows.isEmpty && qualB t && (t.ncols == r)),
       some r) := by
  induction l with
  | nil => intro sel r; simp
  | cons t l ih =>
    intro sel r
    rw [List.foldl_cons]
    rcases ht : t.rows with _ | ⟨a, as⟩
    · rw [selectStep_rows_nil _ _ ht, ih]
      simp [List.filter_cons, ht]
    · by_cases h2 : 2 ≤ classify t
      · by_cases h3 : t.ncols = r
        · have hstep : selectStep (sel, some r) t = (sel ++ [t], some r) := by
            simp [selectStep, ht, h2, h3]
          rw [hstep, ih]
          simp [List.filter_cons, ht, qualB, h2, h3]
        · have hstep : selectStep (sel, some r) t = (sel, some r) := by
            simp [selectStep, ht, h2, h3]
          rw [hstep, ih]
          simp [List.filter_cons, h3]
      · have hstep : selectStep (sel, some r) t = (sel, some r) := by
          simp [selectStep, ht, h2]
        rw [hstep, ih]
        simp [List.filter_cons, qualB, h2]

theorem selectCargoTables_eq_filter (tables pre post : List RawTable)
    (f : RawTable)
    (hne : ∀ t ∈ tables, t.rows ≠ [])
    (hsplit : tables = pre ++ f :: post)
    (hpre : ∀ t ∈ pre, ¬ 2 ≤ classify t)
    (hf : 2 ≤ classify f) :
    selectCargoTables tables =
      tables.filter (fun t => qualB t && (t.ncols == f.ncols)) := by
  subst hsplit
  have hfe : f.rows ≠ [] := hne f (by simp)
  have hstep : selectStep ([], none) f = ([f], some f.ncols) := by
    simp [selectStep, hfe, hf]
  unfold selectCargoTables
  rw [List.foldl_append, foldl_selectStep_none _ _ hpre, List.foldl_cons,
      hstep, foldl_selectStep_some]
  have hpf : pre.filter (fun t => qualB t && (t.ncols == f.ncols)) = [] := by
    refine List.filter_eq_nil_iff.mpr (fun t ht => ?_)
    simp [qualB, hpre t ht]
  have hcong :
      post.filter (fun t => !t.rows.isEmpty && qualB t && (t.ncols == f.ncols)) =
      post.filter (fun t => qualB t && (t.ncols == f.ncols)) := by
    refine List.filter_congr (fun t ht => ?_)
    have hr : t.rows ≠ [] := hne t (by simp [ht])
    rcases h : t.rows with _ | ⟨a, as⟩
    · exact absurd h hr
    · simp [h]
  have hpredf : (qualB f && (f.ncols == f.ncols)) = true := by
    simp [qualB, hf]
  show [f] ++ post.filter (fun t => !t.rows.isEmpty && qualB t && (t.ncols == f.ncols)) =
      (pre ++ f :: post).filter (fun t => qualB t && (t.ncols == f.ncols))
  rw [hcong, List.filter_append, hpf, List.filter_cons, if_pos hpredf]
  simp

theorem selectStep_fst_sub (acc : List RawTable × Option Nat) (u : RawTable) :
    (selectStep acc u).1 = acc.1 ∨
    ((selectStep acc u).1 = acc.1 ++ [u] ∧ u.rows ≠ [] ∧ 2 ≤ classify u) := by
  rcases hu : u.rows with _ | ⟨a, as⟩
  · rw [selectStep_rows_nil _ _ hu]
    exact Or.inl rfl
  · by_cases h2 : 2 ≤ classify u
    · rcases acc with ⟨sel, oref⟩
      rcases oref with _ | r
      · refine Or.inr ⟨?_, by simp, h2⟩
        simp [selectStep, hu, h2]
      · by_cases h3 : u.ncols = r
        · refine Or.inr ⟨?_, by simp, h2⟩
          simp [selectStep, hu, h2, h3]
        · refine Or.inl ?_
          simp [selectStep, hu, h2, h3]
    · refine Or.inl ?_
      simp [selectStep, hu, h2]

theorem mem_selectStep (acc : List RawTable × Option Nat) (u t : RawTable)
    (h : t ∈ (selectStep acc u).1) :
    t ∈ acc.1 ∨ (t = u ∧ t.rows ≠ [] ∧ 2 ≤ classify t) := by
  rcases selectStep_fst_sub acc u with he | ⟨he, hur, h2⟩
  · rw [he] at h
    exact Or.inl h
  · rw [he, List.mem_append] at h
    rcases h with h | h
    · exact Or.inl h
    · have ht : t = u := List.mem_singleton.mp h
      subst ht
      exact Or.inr ⟨rfl, hur, h2⟩

theorem mem_foldl_selectStep (l : List RawTable) :
    ∀ (acc : List RawTable × Option Nat) (t : RawTable),
    t ∈ (l.foldl selectStep acc).1 →
    t ∈ acc.1 ∨ (t.rows ≠ [] ∧ 2 ≤ classify t) := by
  induction l with
  | nil => intro acc t h; exact Or.inl h
  | cons u l ih =>
    intro acc t h
    rw [List.foldl_cons] at h
    rcases ih (selectStep acc u) t h with h' | h'
    · rcases mem_selectStep acc u t h' with h'' | ⟨rfl, h3, h4⟩
      · exact Or.inl h''
      · exact Or.inr ⟨h3, h4⟩
    · exact Or.inr h'

/-- C1: walking the tables in page order, the first qualifying table
(score at least 2) fixes the group LayoutSignature as its own column
count and the consolidated group is exactly the qualifying tables whose
column count equals that signature, in order; concretely, qualifying
tables of 8, 8 and 9 columns on pages 1, 2, 3 give the group of pages 1
and 2 only; and a table scoring below 2 is never a member of the
consolidated group.  Tables are taken nonempty, since an empty table is
discarded before scoring (see C10). -/
theorem claimC1_consolidation :
    (∀ (tables pre post : List RawTable) (f : RawTable),
      (∀ t ∈ tables, t.rows ≠ []) →
      tables = pre ++ f :: post →
      (∀ t ∈ pre, ¬ 2 ≤ classify t) →
      2 ≤ classify f →
      selectCargoTables tables =
        tables.filter (fun t => qualB t && (t.ncols == f.ncols)))
    ∧ selectCargoTables [tab1, tab2, tab3] = [tab1, tab2]
    ∧ (∀ (tables : List RawTable) (t : RawTable),
        t ∈ selectCargoTables tables → 2 ≤ classify t) := by
  refine ⟨?_, by decide, ?_⟩
  · exact fun tables pre post f hne hsplit hpre hf =>
      selectCargoTables_eq_filter tables pre post f hne hsplit hpre hf
  · intro tables t h
    rcases mem_foldl_selectStep tables ([], none) t h with h' | h'
    · simp at h'
    · exact h'.2

theorem claimC1_consolidation_witness :
    selectCargoTables [tab1, tab2, tab3] =
      ([tab1, tab2, tab3] : List RawTable).filter
        (fun t => qualB t && (t.ncols == tab1.ncols)) :=
  claimC1_consolidation.1 [tab1, tab2, tab3] [] [tab2, tab3] tab1
    (by decide) rfl (by simp) (by decide)

/-- C5 counterexample: on the qualifying 8-column table of page 1
followed by the qualifying 9-column table of page 3, the 9-column table
neither joins the group nor starts a new one: the selection keeps only
the 8-column table and the mismatching table appears nowhere in the
output. -/
theorem claimC5_counterexample :
    2 ≤ classify tab3 ∧ tab3.ncols ≠ tab1.ncols ∧
    selectCargoTables [tab1, tab3] = [tab1] ∧
    tab3 ∉ selectCargoTables [tab1, tab3] := by
  exact ⟨by decide, by decide, by decide, by decide⟩

/-- C5 (amended): a qualifying table whose column count differs from the
first qualifying table's column count is discarded by consolidation: it
is not appended to the group and no new group is started, so it is not a
member of the single consolidated group.  Tables are taken nonempty, as
in C1. -/
theorem claimC5_mismatch_discarded
    (tables pre post : List RawTable) (f t : RawTable)
    (hne : ∀ u ∈ tables, u.rows ≠ [])
    (hsplit : tables = pre ++ f :: post)
    (hpre : ∀ u ∈ pre, ¬ 2 ≤ classify u)
    (hf : 2 ≤ classify f)
    (_hmem : t ∈ tables)
    (_hq : 2 ≤ classify t)
    (hcol : t.ncols ≠ f.ncols) :
    t ∉ selectCargoTables tables := by
  rw [selectCargoTables_eq_filter tables pre post f hne hsplit hpre hf]
  intro hc
  have hp := (List.mem_filter.mp hc).2
  simp [hcol] at hp

theorem claimC5_mismatch_discarded_witness :
    tab3 ∉ selectCargoTables [tab1, tab3] :=
  claimC5_mismatch_discarded [tab1, tab3] [] [tab3] tab1 tab3
    (by decide) rfl (by simp) (by decide) (by decide) (by decide) (by decide)

/-- C10: a table with a header row but zero data rows is discarded before
scoring, however many vocabulary keywords its header holds: it is never a
member of the consolidated group, and removing it from the input leaves
the selection unchanged. -/
theorem claimC10_empty_discarded :
    (∀ (tables : List RawTable) (t : RawTable),
      t.rows = [] → t ∉ selectCargoTables tables)
    ∧ (∀ (l1 l2 : List RawTable) (t : RawTable), t.rows = [] →
        selectCargoTables (l1 ++ t :: l2) = selectCargoTables (l1 ++ l2)) := by
  constructor
  · intro tables t hrows hmem
    rcases mem_foldl_selectStep tables ([], none) t hmem with h | h
    · simp at h
    · exact h.1 hrows
  · intro l1 l2 t hrows
    unfold selectCargoTables
    rw [List.foldl_append, List.foldl_append, List.foldl_cons,
        selectStep_rows_nil _ _ hrows]

/-- Header-only table whose header holds several vocabulary keywords. -/
def tabEmpty : RawTable := ⟨4, ["Cargo", "Salário", "Vagas"], []⟩

theorem claimC10_empty_discarded_witness :
    tabEmpty ∉ selectCargoTables [tabEmpty, tab1] ∧
    selectCargoTables [tabEmpty, tab1] = selectCargoTables [tab1] := by
  constructor
  · exact claimC10_empty_discarded.1 [tabEmpty, tab1] tabEmpty rfl
  · exact claimC10_empty_discarded.2 [] [tab1] tabEmpty rfl

/-- C3: a table with at least 8 columns always receives the fixed
wide-layout mapping role 0, requirement 2, hours 3, openings 4, salary 7,
whatever its header texts say. -/
theorem claimC3_wide (headers : List String) (h : 8 ≤ headers.length) :
    inferMapping headers =
      { cargo := some 0, requisito := some 2, carga_horaria := some 3,
        vagas := some 4, salario := some 7 } := by
  simp [inferMapping, h]

theorem claimC3_wide_witness :
    inferMapping ["um", "dois", "três", "quatro", "cinco", "seis", "sete", "oito"] =
      { cargo := some 0, requisito := some 2, carga_horaria := some 3,
        vagas := some 4, salario := some 7 } :=
  claimC3_wide _ (by decide)

theorem assignCol_salario (m : ColMapping) (idx : Nat) (h : String) :
    (assignCol m idx h).salario =
      if assignsSalaryB h then some idx else m.salario := by
  by_cases h1 : roleMatchB h
  · simp [assignCol, assignsSalaryB, h1]
  · by_cases h2 : reqMatchB h
    · simp [assignCol, assignsSalaryB, h1, h2]
    · by_cases h3 : salMatchB h
      · simp [assignCol, assignsSalaryB, h1, h2, h3]
      · by_cases h4 : hoursMatchB h
        · simp [assignCol, assignsSalaryB, h1, h2, h3, h4]
        · by_cases h5 : vagasMatchB h
          · simp [assignCol, assignsSalaryB, h1, h2, h3, h4, h5]
          · simp [assignCol, assignsSalaryB, h1, h2, h3, h4, h5]

theorem narrowGo_salario_none (l : List String) :
    ∀ (m : ColMapping) (idx : Nat),
    (∀ k h, l.get? k = some h → assignsSalaryB h = false) →
    (narrowGo m idx l).salario = m.salario := by
  induction l with
  | nil => intro m idx _; rfl
  | cons a t ih =>
    intro m idx hnone
    show (narrowGo (assignCol m idx a) (idx + 1) t).salario = m.salario
    rw [ih _ _ (fun k h' hk => hnone (k + 1) h' (by simpa using hk)),
        assignCol_salario]
    simp [hnone 0 a rfl]

theorem narrowGo_salario_last (l : List String) :
    ∀ (m : ColMapping) (idx p : Nat) (h : String),
    l.get? p = some h → assignsSalaryB h = true →
    (∀ q h', p < q → l.get? q = some h' → assignsSalaryB h' = false) →
    (narrowGo m idx l).salario = some (idx + p) := by
  induction l with
  | nil => intro m idx p h hp _ _; simp at hp
  | cons a t ih =>
    intro m idx p h hp hs hlast
    rcases p with _ | p
    · have ha : a = h := by simpa using hp
      subst ha
      show (narrowGo (assignCol m idx a) (idx + 1) t).salario = some (idx + 0)
      rw [narrowGo_salario_none t _ _
            (fun k h' hk => hlast (k + 1) h' (by omega) (by simpa using hk)),
          assignCol_salario]
      simp [hs]
    · show (narrowGo (assignCol m idx a) (idx + 1) t).salario = some (idx + (p + 1))
      rw [ih _ (idx + 1) p h (by simpa using hp) hs
            (fun q h' hq hget => hlast (q + 1) h' (by omega) (by simpa using hget))]
      congr 1
      omega

/-- C4 counterexample, two exhibits against the claim as stated.  First,
a grid table of 4 columns (fewer than 5) whose first and last headers
both match the salary keyword group: the DataFrame handed to
`parse_cargos` has 5 columns once `_pagina` is appended, so the fixed
medium positional map fires and the salary index is 4 (the `_pagina`
column), not the later matching column 3 — no keyword matching happens at
all.  Second, a 2-column grid whose headers both match the salary group:
keyword matching does run, but the later column also matches the
higher-priority role group and is assigned to role, so the salary index
is the earlier column 0, not 1. -/
theorem claimC4_counterexample :
    ((["salário", "b", "c", "vencimento"] : List String).length < 5 ∧
      salMatchB "salário" = true ∧ salMatchB "vencimento" = true ∧
      (parseCargosMapping ["salário", "b", "c", "vencimento"]).salario = some 4 ∧
      (parseCargosMapping ["salário", "b", "c", "vencimento"]).salario ≠ some 3)
    ∧ ((["salário", "cargo salário"] : List String).length < 5 ∧
      salMatchB "salário" = true ∧ salMatchB "cargo salário" = true ∧
      (parseCargosMapping ["salário", "cargo salário"]).salario = some 0 ∧
      (parseCargosMapping ["salário", "cargo salário"]).salario ≠ some 1) := by
  exact ⟨⟨by decide, by decide, by decide, by decide, by decide⟩,
         ⟨by decide, by decide, by decide, by decide, by decide⟩⟩

/-- C4 (amended): a column matching the role group is assigned to role
whatever else it matches (the if/elif chain assigns at most one field,
first group wins); a grid table of exactly 4 columns receives the fixed
medium positional map, whose salary index 4 is the appended `_pagina`
column; and on grid tables of fewer than 4 columns — whose DataFrame has
fewer than 5 columns, so the keyword-matching branch runs — when columns
are assigned to the salary field (they match the salary group and no
higher-priority group), the mapping's salary index is the last such
column's index. -/
theorem claimC4_narrow_salary :
    (∀ (m : ColMapping) (idx : Nat) (h : String), roleMatchB h = true →
        assignCol m idx h = { m with cargo := some idx })
    ∧ (∀ headers : List String, headers.length = 4 →
        parseCargosMapping headers =
          { cargo := some 0, requisito := some 1, carga_horaria := some 2,
            vagas := some 3, salario := some 4 })
    ∧ (∀ (headers : List String) (j : Nat) (h : String),
        headers.length < 4 →
        headers.get? j = some h →
        assignsSalaryB h = true →
        (∀ k h', j < k → headers.get? k = some h' → assignsSalaryB h' = false) →
        (parseCargosMapping headers).salario = some j) := by
  refine ⟨?_, ?_, ?_⟩
  · intro m idx h hrole
    simp [assignCol, hrole]
  · intro headers hlen
    have hlen5 : (headers ++ ["_pagina"]).length = 5 := by
      simp [hlen]
    have h8 : ¬ 8 ≤ (headers ++ ["_pagina"]).length := by omega
    have h5 : 5 ≤ (headers ++ ["_pagina"]).length := by omega
    rw [parseCargosMapping, inferMapping, if_neg h8, if_pos h5]
  · intro headers j h hlen hget hsal hlast
    have hj : j < headers.length := by
      by_contra hc
      push_neg at hc
      rw [List.get?_eq_none.mpr hc] at hget
      exact Option.noConfusion hget
    have hlen5 : (headers ++ ["_pagina"]).length = headers.length + 1 := by
      simp
    have h8 : ¬ 8 ≤ (headers ++ ["_pagina"]).length := by omega
    have h5 : ¬ 5 ≤ (headers ++ ["_pagina"]).length := by omega
    have hget' : (headers ++ ["_pagina"]).get? j = some h := by
      rw [List.get?_append hj]
      exact hget
    have hlast' : ∀ k h', j < k → (headers ++ ["_pagina"]).get? k = some h' →
        assignsSalaryB h' = false := by
      intro k h' hjk hk
      by_cases hkl : k < headers.length
      · rw [List.get?_append hkl] at hk
        exact hlast k h' hjk hk
      · push_neg at hkl
        rw [List.get?_append_right hkl] at hk
        rcases hd : k - headers.length with _ | n
        · rw [hd] at hk
          have hp : h' = "_pagina" := by
            have := Option.some.inj hk
            rw [← this]
          rw [hp]
          decide
        · rw [hd] at hk
          simp at hk
    have hgo := narrowGo_salario_last (headers ++ ["_pagina"]) {} 0 j h
      hget' hsal hlast'
    rw [parseCargosMapping, inferMapping, if_neg h8, if_neg h5]
    simpa using hgo

theorem claimC4_narrow_salary_witness :
    (parseCargosMapping ["vagas", "salário"]).salario = some 1 :=
  claimC4_narrow_salary.2.2 ["vagas", "salário"] 1 "salário" (by decide) rfl
    (by decide)
    (fun k h' hk hget => by
      have hnone : (["vagas", "salário"] : List String).get? k = none := by
        refine List.get?_eq_none.mpr ?_
        simp only [List.length_cons, List.length_nil]
        omega
      rw [hnone] at hget
      exact Option.noConfusion hget)

/-- The medium-layout mapping, for the concrete 5-column rows below. -/
def medMap : ColMapping :=
  { cargo := some 0, requisito := some 1, carga_horaria := some 2,
    vagas := some 3, salario := some 4 }

/-- Included row: long role, valid salary. -/
def rowACS : List String :=
  ["Agente Comunitário de Saúde", "Fundamental", "40h", "04", "3.036,00"]

/-- The record extracted from `rowACS` with empty city context. -/
def recACS : CargoInfo :=
  { cidade := "", cargo := "Agente Comunitário de Saúde",
    requisito := "Fundamental", salario := "3.036,00",
    carga_horaria := "40h", vagas := "04" }

/-- Excluded row: role of length 1. -/
def rowX : List String := ["X", "Fundamental", "40h", "04", "1.000,00"]

/-- Excluded row: salary is a dash. -/
def rowDash : List String :=
  ["Cargo Qualquer", "Fundamental", "40h", "04", "-"]

/-- Excluded row: salary cell is the literal string None. -/
def rowNone : List String :=
  ["Cargo Grande Demais", "Fundamental", "40h", "04", "None"]

/-- C6: a successfully extracted row is emitted as a record exactly when
the inclusion predicate holds, namely the normalized role is non-empty
and longer than 3 characters and the normalized salary is non-empty and
not nan, None or a dash; rows failing the predicate are dropped without
error.  Concretely the row with role Agente Comunitário de Saúde and
salary 3.036,00 is included, the row with role X is excluded, and the row
with salary dash is excluded. -/
theorem claimC6_inclusion :
    (∀ (m : ColMapping) (cidade : String) (row : List String)
        (info : CargoInfo),
      rowRecord m cidade row = some info →
      (parseRows m cidade [row] = if includeB info then [info] else []) ∧
      (includeB info = true ↔
        info.cargo ≠ "" ∧ 3 < info.cargo.length ∧ info.salario ≠ "" ∧
        info.salario ≠ "nan" ∧ info.salario ≠ "None" ∧ info.salario ≠ "-"))
    ∧ parseRows medMap "" [rowACS] = [recACS]
    ∧ parseRows medMap "" [rowX] = []
    ∧ parseRows medMap "" [rowDash] = [] := by
  refine ⟨?_, by decide, by decide, by decide⟩
  intro m cidade row info hrec
  constructor
  · by_cases hi : includeB info
    · simp [parseRows, List.filterMap_cons, hrec, hi]
    · simp [parseRows, List.filterMap_cons, hrec, hi]
  · simp [includeB, and_assoc]

theorem claimC6_inclusion_witness :
    parseRows medMap "" [rowACS] =
      (if includeB recACS then [recACS] else []) :=
  ((claimC6_inclusion.1 medMap "" rowACS recACS (by decide)).1)

theorem normPH_not_placeholder (s : String) :
    normPH s ≠ "nan" ∧ normPH s ≠ "None" ∧ normPH s ≠ "null" := by
  by_cases h : (s = "nan" || s = "None" || s = "null") = true
  · simp [normPH, h]
  · rw [normPH, if_neg h]
    simp at h
    exact ⟨h.1.1, h.1.2, h.2⟩

theorem rowRecord_salario (m : ColMapping) (cidade : String)
    (row : List String) (info : CargoInfo)
    (h : rowRecord m cidade row = some info) :
    ∃ sl, readField row m.salario = some sl ∧ info.salario = normPH sl := by
  rcases h1 : readField row m.cargo with _ | c <;>
    rcases h2 : readField row m.requisito with _ | rq <;>
    rcases h3 : readField row m.salario with _ | sl <;>
    rcases h4 : readField row m.carga_horaria with _ | ch <;>
    rcases h5 : readField row m.vagas with _ | vg <;>
    simp [rowRecord, h1, h2, h3, h4, h5] at h
  exact ⟨sl, rfl, by rw [← h]⟩

/-- C7: every extracted field value equal to one of the literal
placeholders nan, None, null is rewritten to the empty string before the
inclusion predicate runs, so the salary of an extracted row never holds a
placeholder, and a row whose salary cell is literally None yields no
record. -/
theorem claimC7_placeholder :
    (∀ s : String, s = "nan" ∨ s = "None" ∨ s = "null" → normPH s = "")
    ∧ (∀ (m : ColMapping) (cidade : String) (row : List String)
        (info : CargoInfo),
        rowRecord m cidade row = some info →
        info.salario ≠ "nan" ∧ info.salario ≠ "None" ∧ info.salario ≠ "null")
    ∧ (∀ (m : ColMapping) (cidade : String) (row : List String) (i : Nat),
        m.salario = some i → row.get? i = some "None" →
        parseRows m cidade [row] = []) := by
  refine ⟨?_, ?_, ?_⟩
  · intro s h
    rcases h with rfl | rfl | rfl <;> rfl
  · intro m cidade row info h
    obtain ⟨sl, _, hsal⟩ := rowRecord_salario m cidade row info h
    rw [hsal]
    exact normPH_not_placeholder sl
  · intro m cidade row i hm hget
    rcases hrec : rowRecord m cidade row with _ | info
    · simp [parseRows, List.filterMap_cons, hrec]
    · obtain ⟨sl, hread, hsal⟩ := rowRecord_salario m cidade row info hrec
      rw [hm] at hread
      simp only [readField] at hread
      rw [hget] at hread
      simp only [Option.map_some'] at hread
      have hsl : sl = "None" := by
        have h2 := Option.some.inj hread
        rw [← h2]
        rfl
      have hnone : info.salario = "" := by
        rw [hsal, hsl]
        rfl
      have hinc : includeB info = false := by
        simp [includeB, hnone]
      simp [parseRows, List.filterMap_cons, hrec, hinc]

theorem claimC7_placeholder_witness :
    normPH "None" = "" ∧ parseRows medMap "" [rowNone] = [] := by
  constructor
  · exact claimC7_placeholder.1 "None" (Or.inr (Or.inl rfl))
  · exact claimC7_placeholder.2.2 medMap "" rowNone 4 rfl rfl

/-- The index `i` is one of the mapped column indices of `m`. -/
def mappedIdxP (m : ColMapping) (i : Nat) : Prop :=
  m.cargo = some i ∨ m.requisito = some i ∨ m.salario = some i ∨
  m.carga_horaria = some i ∨ m.vagas = some i

theorem rowRecord_eq_none_of (m : ColMapping) (cidade : String)
    (row : List String)
    (h : readField row m.cargo = none ∨ readField row m.requisito = none ∨
         readField row m.salario = none ∨
         readField row m.carga_horaria = none ∨
         readField row m.vagas = none) :
    rowRecord m cidade row = none := by
  rcases h1 : readField row m.cargo with _ | c <;>
    rcases h2 : readField row m.requisito with _ | rq <;>
    rcases h3 : readField row m.salario with _ | sl <;>
    rcases h4 : readField row m.carga_horaria with _ | ch <;>
    rcases h5 : readField row m.vagas with _ | vg <;>
    simp_all [rowRecord]

/-- C8: when some mapped column index is out of range for a row, that row
is skipped whole: its extraction yields no record, not a partial one, and
the records produced from the surrounding rows are exactly those produced
with the malformed row absent. -/
theorem claimC8_bad_row_skipped
    (m : ColMapping) (cidade : String) (pre post : List (List String))
    (row : List String) (i : Nat)
    (hi : mappedIdxP m i) (hlen : row.length ≤ i) :
    rowRecord m cidade row = none ∧
    parseRows m cidade (pre ++ row :: post) =
      parseRows m cidade pre ++ parseRows m cidade post := by
  have hread : readField row (some i) = none := by
    have hg : row.get? i = none := List.get?_eq_none.mpr hlen
    simp only [readField]
    rw [hg]
    rfl
  have hnone : rowRecord m cidade row = none := by
    rcases hi with h | h | h | h | h
    · exact rowRecord_eq_none_of _ _ _ (Or.inl (by rw [h]; exact hread))
    · exact rowRecord_eq_none_of _ _ _ (Or.inr (Or.inl (by rw [h]; exact hread)))
    · exact rowRecord_eq_none_of _ _ _
        (Or.inr (Or.inr (Or.inl (by rw [h]; exact hread))))
    · exact rowRecord_eq_none_of _ _ _
        (Or.inr (Or.inr (Or.inr (Or.inl (by rw [h]; exact hread)))))
    · exact rowRecord_eq_none_of _ _ _
        (Or.inr (Or.inr (Or.inr (Or.inr (by rw [h]; exact hread)))))
  refine ⟨hnone, ?_⟩
  simp [parseRows, List.filterMap_append, List.filterMap_cons, hnone]

theorem claimC8_bad_row_skipped_witness :
    parseRows medMap "" [rowACS, ["curto"], rowDash] =
      parseRows medMap "" [rowACS] ++ parseRows medMap "" [rowDash] :=
  (claimC8_bad_row_skipped medMap "" [rowACS] [rowDash] ["curto"] 4
    (Or.inr (Or.inr (Or.inl rfl))) (by decide)).2

theorem takeWhile_all_append {α : Type} {p : α → Bool} (xs ys : List α)
    (h : ∀ x ∈ xs, p x = true) :
    (xs ++ ys).takeWhile p = xs ++ ys.takeWhile p := by
  induction xs with
  | nil => simp
  | cons a l ih =>
    have ha : p a = true := h a (List.mem_cons_self a l)
    simp [List.takeWhile_cons, ha,
          ih (fun x hx => h x (List.mem_cons_of_mem a hx))]

theorem dropWhile_all_append {α : Type} {p : α → Bool} (xs ys : List α)
    (h : ∀ x ∈ xs, p x = true) :
    (xs ++ ys).dropWhile p = ys.dropWhile p := by
  induction xs with
  | nil => simp
  | cons a l ih =>
    have ha : p a = true := h a (List.mem_cons_self a l)
    simp [List.dropWhile_cons, ha,
          ih (fun x hx => h x (List.mem_cons_of_mem a hx))]

theorem space_not_digit (x : Char) (h : isSpaceC x = true) :
    isDigitC x = false := by
  have hx := h
  simp [isSpaceC] at hx
  rcases hx with ((((rfl | rfl) | rfl) | rfl) | rfl) | rfl <;> decide

theorem searchPlusCR_of_match (a : Char) (l : List Char) (n : Nat)
    (h : matchPlusCRAt (a :: l) = some n) : searchPlusCR (a :: l) = some n := by
  simp [searchPlusCR, h]

theorem parse_vagas_plusCR (ds sp1 sp2 : List Char) (c r : Char)
    (hds : ds ≠ []) (hd : ∀ x ∈ ds, isDigitC x = true)
    (h1 : ∀ x ∈ sp1, isSpaceC x = true) (h2 : ∀ x ∈ sp2, isSpaceC x = true)
    (hc : c = 'C' ∨ c = 'c') (hr : r = 'R' ∨ r = 'r') :
    parse_vagas (String.mk (ds ++ (sp1 ++ ('+' :: (sp2 ++ [c, r]))))) =
      (natOfDigits ds, 1) := by
  rcases hcons : ds with _ | ⟨d, dt⟩
  · exact absurd hcons hds
  rw [← hcons]
  have hplusdig : isDigitC '+' = false := by decide
  have hplussp : isSpaceC '+' = false := by decide
  have htk : (ds ++ (sp1 ++ ('+' :: (sp2 ++ [c, r])))).takeWhile isDigitC =
      ds := by
    rw [takeWhile_all_append ds _ hd]
    rcases sp1 with _ | ⟨s, sp⟩
    · simp [List.takeWhile_cons, hplusdig]
    · have hs : isSpaceC s = true := h1 s (List.mem_cons_self s sp)
      simp [List.takeWhile_cons, space_not_digit s hs]
  have hdp : (ds ++ (sp1 ++ ('+' :: (sp2 ++ [c, r])))).dropWhile isDigitC =
      sp1 ++ ('+' :: (sp2 ++ [c, r])) := by
    rw [dropWhile_all_append ds _ hd]
    rcases sp1 with _ | ⟨s, sp⟩
    · simp [List.dropWhile_cons, hplusdig]
    · have hs : isSpaceC s = true := h1 s (List.mem_cons_self s sp)
      simp [List.dropWhile_cons, space_not_digit s hs]
  have hsp1 : (sp1 ++ ('+' :: (sp2 ++ [c, r]))).dropWhile isSpaceC =
      '+' :: (sp2 ++ [c, r]) := by
    rw [dropWhile_all_append sp1 _ h1]
    simp [List.dropWhile_cons, hplussp]
  have hcnotsp : isSpaceC c = false := by
    rcases hc with rfl | rfl <;> decide
  have hsp2 : (sp2 ++ [c, r]).dropWhile isSpaceC = [c, r] := by
    rw [dropWhile_all_append sp2 _ h2]
    simp [List.dropWhile_cons, hcnotsp]
  have hcr : isCR2 [c, r] = true := by
    rcases hc with rfl | rfl <;> rcases hr with rfl | rfl <;> decide
  have hisEmpty : ds.isEmpty = false := by rw [hcons]; rfl
  have hmatch : matchPlusCRAt (ds ++ (sp1 ++ ('+' :: (sp2 ++ [c, r])))) =
      some (natOfDigits ds) := by
    simp only [matchPlusCRAt, htk, hdp, hsp1, hisEmpty]
    simp [hsp2, hcr]
  have hsearch : searchPlusCR (ds ++ (sp1 ++ ('+' :: (sp2 ++ [c, r])))) =
      some (natOfDigits ds) := by
    rw [hcons] at hmatch ⊢
    simp only [List.cons_append] at hmatch ⊢
    exact searchPlusCR_of_match _ _ _ hmatch
  have hnonempty : String.mk (ds ++ (sp1 ++ ('+' :: (sp2 ++ [c, r])))) ≠ "" := by
    intro heq
    have hl : ds ++ (sp1 ++ ('+' :: (sp2 ++ [c, r]))) = [] :=
      congrArg String.data heq
    rw [hcons] at hl
    simp at hl
  rw [parse_vagas, if_neg hnonempty]
  have hlist : (String.mk (ds ++ (sp1 ++ ('+' :: (sp2 ++ [c, r]))))).toList =
      ds ++ (sp1 ++ ('+' :: (sp2 ++ [c, r]))) := rfl
  rw [hlist, hsearch]

theorem searchPlusCR_all_digits (l : List Char)
    (h : ∀ x ∈ l, isDigitC x = true) : searchPlusCR l = none := by
  induction l with
  | nil => rfl
  | cons a t ih =>
    have hdp : (a :: t).dropWhile isDigitC = [] := by
      have := dropWhile_all_append (a :: t) [] h
      simpa using this
    have hmatch : matchPlusCRAt (a :: t) = none := by
      rw [matchPlusCRAt, hdp]
      simp [List.takeWhile_cons, h a (List.mem_cons_self a t)]
    simp [searchPlusCR, hmatch,
          ih (fun x hx => h x (List.mem_cons_of_mem a hx))]

theorem parse_vagas_digits (ds : List Char) (hds : ds ≠ [])
    (hd : ∀ x ∈ ds, isDigitC x = true) :
    parse_vagas (String.mk ds) = (natOfDigits ds, 0) := by
  rcases hcons : ds with _ | ⟨d, dt⟩
  · exact absurd hcons hds
  rw [← hcons]
  have hnonempty : String.mk ds ≠ "" := by
    intro heq
    have hl : ds = [] := congrArg String.data heq
    rw [hcons] at hl
    simp at hl
  have hplus : searchPlusCR ds = none := searchPlusCR_all_digits ds hd
  have hdig : isDigitC d = true := hd d (by rw [hcons]; exact List.mem_cons_self d dt)
  have hdrop : ds.dropWhile (fun c => !isDigitC c) = ds := by
    rw [hcons]
    simp [List.dropWhile_cons, hdig]
  have htake : ds.takeWhile isDigitC = ds := by
    have := takeWhile_all_append ds [] hd
    simpa using this
  have hnat : searchNat ds = some (natOfDigits ds) := by
    rw [searchNat, hdrop, hcons]
    show some (natOfDigits ((d :: dt).takeWhile isDigitC)) =
      some (natOfDigits (d :: dt))
    rw [← hcons, htake]
  rw [parse_vagas, if_neg hnonempty]
  have hlist : (String.mk ds).toList = ds := rfl
  rw [hlist, hplus, hnat]

theorem searchPlusCR_no_digit (l : List Char)
    (h : ∀ x ∈ l, isDigitC x = false) : searchPlusCR l = none := by
  induction l with
  | nil => rfl
  | cons a t ih =>
    have hmatch : matchPlusCRAt (a :: t) = none := by
      rw [matchPlusCRAt]
      simp [List.takeWhile_cons, h a (List.mem_cons_self a t)]
    simp [searchPlusCR, hmatch,
          ih (fun x hx => h x (List.mem_cons_of_mem a hx))]

theorem parse_vagas_no_digits (s : String)
    (h : ∀ c ∈ s.toList, isDigitC c = false) : parse_vagas s = (0, 0) := by
  by_cases he : s = ""
  · rw [he]
    rfl
  · have hplus : searchPlusCR s.toList = none := searchPlusCR_no_digit _ h
    have hdrop : s.toList.dropWhile (fun c => !isDigitC c) = [] := by
      have hall : ∀ x ∈ s.toList, (fun c => !isDigitC c) x = true := by
        intro x hx
        show (!isDigitC x) = true
        rw [h x hx]
        rfl
      have := dropWhile_all_append s.toList [] hall
      simpa using this
    have hnat : searchNat s.toList = none := by
      rw [searchNat, hdrop]
    rw [parse_vagas, if_neg he, hplus, hnat]

/-- Spec-side description of the form digits, optional spaces, plus,
optional spaces, case-insensitive CR, covering the whole string. -/
def specPlusCRForm (s : String) : Prop :=
  ∃ ds sp1 sp2 c r, ds ≠ [] ∧ (∀ x ∈ ds, isDigitC x = true) ∧
    (∀ x ∈ sp1, isSpaceC x = true) ∧ (∀ x ∈ sp2, isSpaceC x = true) ∧
    (c = 'C' ∨ c = 'c') ∧ (r = 'R' ∨ r = 'r') ∧
    s.toList = ds ++ (sp1 ++ ('+' :: (sp2 ++ [c, r])))

/-- Spec-side description of a bare integer string: nonempty, digits
only. -/
def specBareIntForm (s : String) : Prop :=
  s.toList ≠ [] ∧ ∀ c ∈ s.toList, isDigitC c = true

/-- C9 counterexample: the string a10 is neither of the two claimed forms
— not digits-plus-CR (it holds no plus sign) and not a bare integer (it
starts with a letter) — yet `parse_vagas` returns (10, 0), not the
claimed (0, 0): the regular expressions search anywhere in the string. -/
theorem claimC9_counterexample :
    ¬ specPlusCRForm "a10" ∧ ¬ specBareIntForm "a10" ∧
    parse_vagas "a10" = (10, 0) ∧ parse_vagas "a10" ≠ (0, 0) := by
  refine ⟨?_, ?_, by decide, by decide⟩
  · rintro ⟨ds, sp1, sp2, c, r, -, -, -, -, -, -, hl⟩
    have hmem : '+' ∈ ("a10".toList) := by
      rw [hl]
      simp
    simp at hmem
  · rintro ⟨-, hall⟩
    exact absurd (hall 'a' (by decide)) (by decide)

/-- C9 (amended): a string that is exactly of the form digits, optional
spaces, plus, optional spaces, case-insensitive CR parses to the digit
value with reserve flag 1; a bare digit string parses to its value with
flag 0; and a string containing no digit at all parses to (0, 0).  (For
other strings the regular expressions match anywhere inside, see the
counterexample.) -/
theorem claimC9_parse_vagas :
    (∀ (ds sp1 sp2 : List Char) (c r : Char),
      ds ≠ [] → (∀ x ∈ ds, isDigitC x = true) →
      (∀ x ∈ sp1, isSpaceC x = true) → (∀ x ∈ sp2, isSpaceC x = true) →
      (c = 'C' ∨ c = 'c') → (r = 'R' ∨ r = 'r') →
      parse_vagas (String.mk (ds ++ (sp1 ++ ('+' :: (sp2 ++ [c, r]))))) =
        (natOfDigits ds, 1))
    ∧ (∀ ds : List Char, ds ≠ [] → (∀ x ∈ ds, isDigitC x = true) →
        parse_vagas (String.mk ds) = (natOfDigits ds, 0))
    ∧ (∀ s : String, (∀ c ∈ s.toList, isDigitC c = false) →
        parse_vagas s = (0, 0)) :=
  ⟨parse_vagas_plusCR, parse_vagas_digits, parse_vagas_no_digits⟩

theorem claimC9_parse_vagas_witness :
    parse_vagas "02 + CR" = (2, 1) ∧ parse_vagas "10" = (10, 0) ∧
    parse_vagas "sem vagas" = (0, 0) := by
  refine ⟨?_, ?_, ?_⟩
  · exact claimC9_parse_vagas.1 ['0', '2'] [' '] [' '] 'C' 'R' (by decide)
      (by decide) (by decide) (by decide) (Or.inl rfl) (Or.inl rfl)
  · exact claimC9_parse_vagas.2.1 ['1', '0'] (by decide) (by decide)
  · exact claimC9_parse_vagas.2.2 "sem vagas" (by decide)
